import Mathlib

/-!
Shallow embedding of fastapi_file_router/router.py.

The route loader walks a directory tree, skips special directories and
files, imports each qualifying route module through the module-loader
collaborator, derives a URL path template from the file location, appends
an automatic tag, and finally registers every accumulated router with the
host application in path-sorted order.

Strings are modelled as Lean strings (lists of unicode scalar values,
matching Python's sequences of code points for the ASCII data handled
here).  The handler objects are modelled by a heap of tag lists indexed by
router ids, which captures the in-place mutation performed by the line
router.tags += [tag] together with the aliasing a caching module loader
produces.  The host framework and the logger are represented by an event
trace.  Wall-clock timing in the final log message is elided, and the
message of the missing-router diagnostic uses the relative posix path
where the source renders the absolute one (the surrounding text is kept).
-/

/-- True when the first list is a leading segment of the second
(Python str.startswith, on code points). -/
def beginsWith : List Char → List Char → Bool
  | [], _ => true
  | _ :: _, [] => false
  | p :: ps, c :: cs => p = c && beginsWith ps cs

/-- Substring containment (the Python expression pat in s). -/
def containsSub (pat : List Char) : List Char → Bool
  | [] => beginsWith pat []
  | c :: cs => beginsWith pat (c :: cs) || containsSub pat cs

/-- Fuel-indexed worker for replaceList; the fuel dominates the length of
the remaining text, so the scan is structural and kernel-reducible. -/
def replaceListAux (pat rep : List Char) : Nat → List Char → List Char
  | 0, s => s
  | fuel + 1, s =>
    match s with
    | [] => []
    | c :: cs =>
      if !pat.isEmpty && beginsWith pat s then
        rep ++ replaceListAux pat rep fuel (s.drop pat.length)
      else
        c :: replaceListAux pat rep fuel cs

/-- Python str.replace: replace every leftmost non-overlapping occurrence
of pat by rep in a single left-to-right pass; the empty pattern with empty
replacement leaves the text unchanged, as the source only ever uses it
with a replacement for nonempty patterns. -/
def replaceList (pat rep s : List Char) : List Char :=
  replaceListAux pat rep s.length s

/-- String wrapper of replaceList (s.replace(pat, rep) in the source). -/
def strReplace (s pat rep : String) : String :=
  ⟨replaceList pat.data rep.data s.data⟩

/-- Convert square brackets in a path to curly brackets for route
parameters (source: path.replace applied twice). -/
def square_to_curly_brackets (path : String) : String :=
  strReplace (strReplace path "[" "\x7b") "]" "\x7d"

/-- Python str.split on the single-character separator slash. -/
def splitSlash : List Char → List (List Char)
  | [] => [[]]
  | c :: cs =>
    if c = '/' then [] :: splitSlash cs
    else
      match splitSlash cs with
      | [] => [[c]]
      | h :: t => (c :: h) :: t

/-- Join chunks with a separator (Python sep.join). -/
def joinWith (sep : List Char) : List (List Char) → List Char
  | [] => []
  | [x] => x
  | x :: y :: t => x ++ sep ++ joinWith sep (y :: t)

/-- Posix form of root slash file, with root given by its segment list
(the source expression (root / file).as_posix()). -/
def pathStr (segs : List String) (file : String) : String :=
  ⟨joinWith ['/'] ((segs ++ [file]).map String.data)⟩

/-- Posix form of the walk root itself (str(root) in log messages). -/
def dirPathStr (segs : List String) : String :=
  ⟨joinWith ['/'] (segs.map String.data)⟩

/-- Index of the last dot of a filename, Python name.rfind of the dot. -/
def rfindDotIdx : List Char → Option Nat
  | [] => none
  | c :: cs =>
    match rfindDotIdx cs with
    | some i => some (i + 1)
    | none => if c = '.' then some 0 else none

/-- pathlib suffix of a bare filename: the extension from the last dot,
present only when that dot is neither the first nor the last character. -/
def pySuffix (f : String) : String :=
  match rfindDotIdx f.data with
  | some i => if 0 < i ∧ i < f.data.length - 1 then ⟨f.data.drop i⟩ else ""
  | none => ""

/-- pathlib stem of a bare filename: the name up to the suffix. -/
def pyStem (f : String) : String :=
  match rfindDotIdx f.data with
  | some i => if 0 < i ∧ i < f.data.length - 1 then ⟨f.data.take i⟩ else f
  | none => f

/-- Lazy body of the regex bracket group: the shortest run of characters
other than a newline, closed by a square bracket. -/
def scanParam : List Char → Option (List Char)
  | [] => none
  | c :: cs =>
    if c = ']' then some []
    else if c = '\n' then none
    else (scanParam cs).map (c :: ·)

/-- Regex search for the first bracketed group: try every opening bracket
from the left and capture at the first one that closes. -/
def searchBracket : List Char → Option (List Char)
  | [] => none
  | c :: cs =>
    if c = '[' then
      match scanParam cs with
      | some cap => some cap
      | none => searchBracket cs
    else searchBracket cs

/-- Captured text of the first bracketed group of a stem, if any
(the source expression re.search on the stem, group 1). -/
def deriveParameterName (stem : String) : Option String :=
  (searchBracket stem.data).map fun cs => ⟨cs⟩

/-- The inner directory chunks of the joined path: Python slicing [1:-1]
after splitting the posix path on slashes (lines 98-99 of the source). -/
def joined_dirs (segs : List String) (file : String) : String :=
  ⟨joinWith ['/'] (((splitSlash (pathStr segs file).data).drop 1).dropLast)⟩

/-- The base route path before any stem segment: bracket conversion then
removal of the directory name (line 100 of the source). -/
def base_path (dirName : String) (segs : List String) (file : String) : String :=
  strReplace (square_to_curly_brackets (joined_dirs segs file)) dirName ""

/-- Full route path of a qualifying file: the base path plus the
parameter segment, the literal stem segment, or nothing for an index
route (lines 98-112 of the source). -/
def derive_route_path (dirName : String) (segs : List String) (file : String) : String :=
  let b := base_path dirName segs file
  match deriveParameterName (pyStem file) with
  | some p => b ++ "/\x7b" ++ p ++ "\x7d"
  | none => if pyStem file = "route" then b else b ++ "/" ++ pyStem file

/-- The automatic tag of a route: the route path with the directory name
removed once more (line 117 of the source). -/
def auto_tag (dirName route_path : String) : String :=
  strReplace route_path dirName ""

/-- Dotted module path handed to the import machinery: slashes become
dots and the three characters of the py extension are cut (line 88). -/
def module_path (segs : List String) (file : String) : String :=
  let s := strReplace (pathStr segs file) "/" "."
  ⟨s.data.take (s.data.length - 3)⟩

/-- A directory node: its base name, its directly contained route files
and its subdirectories, in traversal order. -/
inductive DirTree where
  | mk (name : String) (files : List String) (subdirs : List DirTree)

/-- Base name of a directory node (Path.name of the walk root). -/
def DirTree.name : DirTree → String
  | .mk n _ _ => n

mutual

/-- Walk entries of a tree below a given ancestor segment list: the
directory itself first, then its subtrees in order (os.walk, top-down). -/
def walkFrom (pre : List String) : DirTree → List (List String × List String)
  | .mk n fs subs => (pre ++ [n], fs) :: walkList (pre ++ [n]) subs

/-- Walk entries of a list of sibling subtrees, in order. -/
def walkList (pre : List String) : List DirTree → List (List String × List String)
  | [] => []
  | t :: ts => walkFrom pre t ++ walkList pre ts

end

/-- Walk of the whole tree (the source generator walk(directory)). -/
def walk (t : DirTree) : List (List String × List String) :=
  walkFrom [] t

/-- Severity levels of the stdlib logging collaborator. -/
inductive LogLevel where
  | debug
  | info
  | warning
  | error
deriving DecidableEq

/-- Observable actions of a run: a log record, an invocation of the
module loader, and a registration against the host application. -/
inductive Event where
  | log (lvl : LogLevel) (msg : String)
  | importMod (modulePath : String)
  | register (pre : String) (tags : List String)
deriving DecidableEq

/-- The log helper of the source: info level when verbose, else debug. -/
def log (message : String) (verbose : Bool) : Event :=
  .log (if verbose then .info else .debug) message

/-- Tag lists of the live router objects, indexed by router id; the id a
loader returns plays the role of the object identity of the router, so a
caching loader yields the same id for the same module on every call. -/
abbrev Heap := List (List String)

/-- Outcome of one import: the import machinery raised, the module has no
router attribute, or a router object was obtained. -/
inductive LoadResult where
  | raised
  | noRouter
  | found (id : Nat)

/-- The module-loader collaborator, keyed by dotted module path. -/
abbrev Loader := String → LoadResult

/-- State threaded through a run: the router heap, the accumulated
(route path, router id) pairs, and the event trace. -/
structure St where
  heap : Heap
  acc : List (String × Nat)
  events : List Event
deriving DecidableEq

/-- Processing of a single directory entry file (lines 76-118): skip
special names and foreign extensions, skip and log likely-misspelled
route files, import the module, then record the route or log its absence.
An error value models an exception escaping from the import. -/
def processFile (loader : Loader) (dirName : String) (auto_tags verbose : Bool)
    (segs : List String) (st : St) (file : String) : Except St St :=
  if beginsWith "__".data file.data || (pySuffix file != ".py") then .ok st
  else if containsSub "route".data (pyStem file).data && (pyStem file != "route") then
    .ok { st with events := st.events ++
      [log ("Skipping possibly misspelled route file " ++ pyStem file ++ " in " ++
        dirPathStr segs) verbose] }
  else
    let mp := module_path segs file
    let st1 : St := { st with events := st.events ++ [.importMod mp] }
    match loader mp with
    | .raised => .error st1
    | .noRouter =>
      .ok { st1 with events := st1.events ++
        [log ("Router " ++ pathStr segs file ++ " does not contain a router") verbose] }
    | .found id =>
      let rp := derive_route_path dirName segs file
      .ok { st1 with
        heap := if auto_tags then st1.heap.set id (st1.heap.getD id [] ++ [auto_tag dirName rp])
                else st1.heap,
        acc := st1.acc ++ [(rp, id)] }

/-- Left-to-right processing of the files of one walk entry, stopping at
the first raised import. -/
def processFiles (loader : Loader) (dirName : String) (auto_tags verbose : Bool)
    (segs : List String) : St → List String → Except St St
  | st, [] => .ok st
  | st, f :: fs =>
    match processFile loader dirName auto_tags verbose segs st f with
    | .error e => .error e
    | .ok st2 => processFiles loader dirName auto_tags verbose segs st2 fs

/-- Base name of the walk root (Path(root).name). -/
def lastSeg (segs : List String) : String :=
  segs.getLastD ""

/-- Processing of one walk entry (lines 72-75): a root whose base name
starts with a double underscore contributes nothing; otherwise its files
are processed in order. -/
def processEntry (loader : Loader) (dirName : String) (auto_tags verbose : Bool)
    (st : St) (entry : List String × List String) : Except St St :=
  if beginsWith "__".data (lastSeg entry.1).data then .ok st
  else processFiles loader dirName auto_tags verbose entry.1 st entry.2

/-- The accumulation phase: fold over all walk entries, stopping at the
first raised import. -/
def collectEntries (loader : Loader) (dirName : String) (auto_tags verbose : Bool) :
    St → List (List String × List String) → Except St St
  | st, [] => .ok st
  | st, e :: es =>
    match processEntry loader dirName auto_tags verbose st e with
    | .error x => .error x
    | .ok st2 => collectEntries loader dirName auto_tags verbose st2 es

/-- Lexicographic comparison of code-point lists, the order Python uses
to compare strings. -/
def lexLe : List Char → List Char → Bool
  | [], _ => true
  | _ :: _, [] => false
  | a :: as, b :: bs =>
    if a.toNat < b.toNat then true
    else if b.toNat < a.toNat then false
    else lexLe as bs

/-- Stable insertion into a sorted accumulator list, by route path. -/
def insertByKey (a : String × Nat) : List (String × Nat) → List (String × Nat)
  | [] => [a]
  | b :: bs => if lexLe a.1.data b.1.data then a :: b :: bs else b :: insertByKey a bs

/-- Stable ascending sort of the accumulator by route path (the source
call sorted(routers, key=operator.itemgetter(0))). -/
def sortByKey : List (String × Nat) → List (String × Nat)
  | [] => []
  | x :: xs => insertByKey x (sortByKey xs)

/-- Events of the registration loop (lines 121-127): one log record and
one include_router call per sorted route, reading the tags the router
object holds after the whole accumulation phase. -/
def regEvents (verbose : Bool) (heap : Heap) : List (String × Nat) → List Event
  | [] => []
  | (p, id) :: rest =>
    log ("Loaded router with path /" ++ p) verbose ::
      .register p (heap.getD id []) :: regEvents verbose heap rest

/-- The registration phase: sort the accumulator, register every entry,
then emit the final summary log record. -/
def registerPhase (verbose : Bool) (st : St) : St :=
  { st with events := st.events ++ regEvents verbose st.heap (sortByKey st.acc) ++
      [log "Routes loaded" verbose] }

/-- The public entry point load_routes: log the start, accumulate over
the walk of the directory, and when no import raised, sort and register.
An error value carries the state at the moment the import raised. -/
def load_routes (loader : Loader) (dir : DirTree) (auto_tags verbose : Bool)
    (heap : Heap) : Except St St :=
  let st0 : St :=
    { heap := heap
      acc := []
      events := [log ("Loading routes from " ++ dir.name) verbose] }
  match collectEntries loader dir.name auto_tags verbose st0 (walk dir) with
  | .error st => .error st
  | .ok st => .ok (registerPhase verbose st)

/-- State carried by either outcome of a run. -/
def stOf : Except St St → St
  | .ok s => s
  | .error s => s

/-- The (prefix, tags) pairs passed to the host mount API, in order. -/
def registeredEv : List Event → List (String × List String)
  | [] => []
  | .register p t :: rest => (p, t) :: registeredEv rest
  | .log _ _ :: rest => registeredEv rest
  | .importMod _ :: rest => registeredEv rest

/-- Registrations of a final state. -/
def registered (st : St) : List (String × List String) :=
  registeredEv st.events

/-- Whether a trace contains any registration. -/
def hasRegister : List Event → Bool
  | [] => false
  | .register _ _ :: _ => true
  | .log _ _ :: rest => hasRegister rest
  | .importMod _ :: rest => hasRegister rest

/-- Whether a trace contains any warning-level log record. -/
def hasWarnLog : List Event → Bool
  | [] => false
  | .log .warning _ :: _ => true
  | .log .debug _ :: rest => hasWarnLog rest
  | .log .info _ :: rest => hasWarnLog rest
  | .log .error _ :: rest => hasWarnLog rest
  | .register _ _ :: rest => hasWarnLog rest
  | .importMod _ :: rest => hasWarnLog rest

/-- Whether a trace contains any module-loader invocation. -/
def hasImport : List Event → Bool
  | [] => false
  | .importMod _ :: _ => true
  | .log _ _ :: rest => hasImport rest
  | .register _ _ :: rest => hasImport rest

/-- Whether a run completed without a raised import. -/
def runOk : Except St St → Bool
  | .ok _ => true
  | .error _ => false

/-- Removal of exactly one occurrence, following the words of the
specification for comparison with the behaviour of the source: strip the
first occurrence of the pattern and keep the rest verbatim. -/
def strip_one (pat : List Char) : List Char → List Char
  | [] => []
  | c :: cs =>
    if !pat.isEmpty && beginsWith pat (c :: cs) then (c :: cs).drop pat.length
    else c :: strip_one pat cs

/-! Lemmas about the string scan primitives. -/

theorem beginsWith_append_self (p t : List Char) : beginsWith p (p ++ t) = true := by
  induction p with
  | nil => rfl
  | cons c cs ih => simp [beginsWith, ih]

theorem replaceListAux_fuel (pat rep : List Char) :
    ∀ fuel s, s.length ≤ fuel →
      replaceListAux pat rep fuel s = replaceListAux pat rep s.length s := by
  intro fuel
  induction fuel using Nat.strong_induction_on with
  | _ fuel ih =>
    intro s hs
    cases s with
    | nil => cases fuel <;> rfl
    | cons c cs =>
      cases fuel with
      | zero => simp at hs
      | succ n =>
        have hcs : cs.length ≤ n := by simpa using hs
        show replaceListAux pat rep (n + 1) (c :: cs) =
          replaceListAux pat rep (c :: cs).length (c :: cs)
        rw [List.length_cons]
        by_cases hb : (!pat.isEmpty && beginsWith pat (c :: cs)) = true
        · have hpat : 1 ≤ pat.length := by
            cases pat
            · simp at hb
            · simp
          have hlen : ((c :: cs).drop pat.length).length ≤ cs.length := by
            simp [List.length_drop]
            omega
          simp only [replaceListAux, hb, if_true]
          rw [ih n (by omega) _ (le_trans hlen hcs), ih cs.length (by omega) _ hlen]
        · rw [Bool.not_eq_true] at hb
          simp only [replaceListAux, hb, Bool.false_eq_true, if_false]
          rw [ih n (by omega) cs hcs, ih cs.length (by omega) cs (le_refl _)]

theorem replaceList_strip_front (pat rep t : List Char) (h : pat ≠ []) :
    replaceList pat rep (pat ++ t) = rep ++ replaceList pat rep t := by
  cases pat with
  | nil => exact absurd rfl h
  | cons p ps =>
    show replaceListAux (p :: ps) rep ((p :: ps) ++ t).length ((p :: ps) ++ t) = _
    have hlen : ((p :: ps) ++ t).length = (ps.length + t.length) + 1 := by
      simp
      try omega
    rw [hlen]
    have hbeg : beginsWith (p :: ps) ((p :: ps) ++ t) = true := beginsWith_append_self _ _
    have hcons : (p :: ps) ++ t = p :: (ps ++ t) := rfl
    simp only [replaceListAux, hcons]
    rw [hcons] at hbeg
    simp only [List.isEmpty, Bool.not_false, Bool.true_and, hbeg, if_true]
    have hdrop : (p :: (ps ++ t)).drop (p :: ps).length = t := by
      exact List.drop_left (p :: ps) t
    rw [hdrop]
    rw [replaceListAux_fuel (p :: ps) rep (ps.length + t.length) t (by omega)]
    rfl

theorem replaceList_id_of_not_contains (pat rep : List Char) :
    ∀ s, containsSub pat s = false → replaceList pat rep s = s := by
  intro s
  induction s with
  | nil => intro _; rfl
  | cons c cs ih =>
    intro h
    have hsplit : beginsWith pat (c :: cs) = false ∧ containsSub pat cs = false := by
      simpa [containsSub] using h
    show replaceListAux pat rep (c :: cs).length (c :: cs) = c :: cs
    rw [List.length_cons]
    simp only [replaceListAux, hsplit.1, Bool.and_false, Bool.false_eq_true, if_false]
    show c :: replaceList pat rep cs = c :: cs
    rw [ih hsplit.2]

/-! Lemmas about the sorting comparator and the stable insertion sort. -/

theorem lexLe_total : ∀ a b : List Char, lexLe a b = true ∨ lexLe b a = true := by
  intro a
  induction a with
  | nil => intro b; exact Or.inl rfl
  | cons x xs ih =>
    intro b
    cases b with
    | nil => exact Or.inr rfl
    | cons y ys =>
      by_cases hxy : x.toNat < y.toNat
      · exact Or.inl (by simp [lexLe, hxy])
      · by_cases hyx : y.toNat < x.toNat
        · exact Or.inr (by simp [lexLe, hyx])
        · cases ih ys with
          | inl h => exact Or.inl (by simp [lexLe, hxy, hyx, h])
          | inr h => exact Or.inr (by simp [lexLe, hxy, hyx, h])

theorem lexLe_trans : ∀ a b c : List Char,
    lexLe a b = true → lexLe b c = true → lexLe a c = true := by
  intro a
  induction a with
  | nil => intro b c _ _; rfl
  | cons x xs ih =>
    intro b c hab hbc
    cases b with
    | nil => simp [lexLe] at hab
    | cons y ys =>
      cases c with
      | nil => simp [lexLe] at hbc
      | cons z zs =>
        simp only [lexLe] at hab hbc ⊢
        by_cases hxy : x.toNat < y.toNat
        · by_cases hyz : y.toNat < z.toNat
          · simp [show x.toNat < z.toNat by omega]
          · by_cases hzy : z.toNat < y.toNat
            · simp [hyz, hzy] at hbc
            · simp [show x.toNat < z.toNat by omega]
        · by_cases hyx : y.toNat < x.toNat
          · simp [hxy, hyx] at hab
          · by_cases hyz : y.toNat < z.toNat
            · simp [show x.toNat < z.toNat by omega]
            · by_cases hzy : z.toNat < y.toNat
              · simp [hyz, hzy] at hbc
              · have hxz : ¬ x.toNat < z.toNat := by omega
                have hzx : ¬ z.toNat < x.toNat := by omega
                simp only [hxy, hyx, if_false] at hab
                simp only [hyz, hzy, if_false] at hbc
                simp [hxz, hzx, ih ys zs hab hbc]

/-- Ordering predicate used for registration: ascending route path. -/
def keyLe (a b : String × Nat) : Prop :=
  lexLe a.1.data b.1.data = true

theorem mem_insertByKey (x a : String × Nat) :
    ∀ l, x ∈ insertByKey a l ↔ x = a ∨ x ∈ l := by
  intro l
  induction l with
  | nil => simp [insertByKey]
  | cons b bs ih =>
    by_cases hb : lexLe a.1.data b.1.data = true
    · simp [insertByKey, hb]
    · simp only [insertByKey, hb, Bool.false_eq_true, if_false, List.mem_cons, ih]
      tauto

theorem pairwise_insertByKey (a : String × Nat) :
    ∀ l, l.Pairwise keyLe → (insertByKey a l).Pairwise keyLe := by
  intro l
  induction l with
  | nil => intro _; simp [insertByKey, List.Pairwise]
  | cons b bs ih =>
    intro hp
    rcases List.pairwise_cons.mp hp with ⟨hb, hbs⟩
    by_cases hab : lexLe a.1.data b.1.data = true
    · simp only [insertByKey, hab, if_true]
      refine List.pairwise_cons.mpr ⟨?_, hp⟩
      intro y hy
      rcases List.mem_cons.mp hy with rfl | hy2
      · exact hab
      · exact lexLe_trans _ _ _ hab (hb y hy2)
    · simp only [insertByKey, hab, Bool.false_eq_true, if_false]
      refine List.pairwise_cons.mpr ⟨?_, ih hbs⟩
      intro y hy
      rcases (mem_insertByKey y a bs).mp hy with rfl | hy2
      · cases lexLe_total y.1.data b.1.data with
        | inl h => exact absurd h hab
        | inr h => exact h
      · exact hb y hy2

theorem sortByKey_pairwise : ∀ l, (sortByKey l).Pairwise keyLe := by
  intro l
  induction l with
  | nil => simp [sortByKey]
  | cons x xs ih => exact pairwise_insertByKey x _ ih

theorem mem_sortByKey (x : String × Nat) : ∀ l, x ∈ sortByKey l ↔ x ∈ l := by
  intro l
  induction l with
  | nil => simp [sortByKey]
  | cons a as ih =>
    simp only [sortByKey, mem_insertByKey, ih, List.mem_cons]

/-! Lemmas about event traces. -/

theorem hasRegister_append : ∀ a b, hasRegister (a ++ b) = (hasRegister a || hasRegister b) := by
  intro a b
  induction a with
  | nil => simp [hasRegister]
  | cons e t ih =>
    cases e <;> simp [hasRegister, ih]

theorem registeredEv_append : ∀ a b, registeredEv (a ++ b) = registeredEv a ++ registeredEv b := by
  intro a b
  induction a with
  | nil => simp [registeredEv]
  | cons e t ih =>
    cases e <;> simp [registeredEv, ih]

theorem registeredEv_eq_nil_of_noreg : ∀ evs, hasRegister evs = false → registeredEv evs = [] := by
  intro evs
  induction evs with
  | nil => intro _; rfl
  | cons e t ih =>
    intro h
    cases e with
    | log lvl m => exact ih (by simpa [hasRegister] using h)
    | importMod m => exact ih (by simpa [hasRegister] using h)
    | register p tg => simp [hasRegister] at h

theorem registeredEv_regEvents (v : Bool) (heap : Heap) :
    ∀ l, registeredEv (regEvents v heap l) =
      l.map fun e => (e.1, heap.getD e.2 []) := by
  intro l
  induction l with
  | nil => rfl
  | cons a t ih =>
    obtain ⟨p, id⟩ := a
    simp [regEvents, registeredEv, log, ih]

/-! Invariants of the accumulation phase. -/

theorem processFile_noreg (L : Loader) (dn : String) (a v : Bool) (segs : List String)
    (st : St) (f : String) (h : hasRegister st.events = false) :
    hasRegister (stOf (processFile L dn a v segs st f)).events = false := by
  unfold processFile
  by_cases h1 : (beginsWith "__".data f.data || (pySuffix f != ".py")) = true
  · simpa [h1, stOf] using h
  · rw [Bool.not_eq_true] at h1
    by_cases h2 : (containsSub "route".data (pyStem f).data && (pyStem f != "route")) = true
    · simp [h1, h2, stOf, hasRegister_append, h, log, hasRegister]
    · rw [Bool.not_eq_true] at h2
      cases hl : L (module_path segs f) with
      | raised => simp [h1, h2, hl, stOf, hasRegister_append, h, hasRegister]
      | noRouter => simp [h1, h2, hl, stOf, hasRegister_append, h, log, hasRegister]
      | found id => simp [h1, h2, hl, stOf, hasRegister_append, h, hasRegister]

theorem processFiles_noreg (L : Loader) (dn : String) (a v : Bool) (segs : List String) :
    ∀ fs st, hasRegister st.events = false →
      hasRegister (stOf (processFiles L dn a v segs st fs)).events = false := by
  intro fs
  induction fs with
  | nil => intro st h; simpa [processFiles, stOf] using h
  | cons f fs ih =>
    intro st h
    have hf := processFile_noreg L dn a v segs st f h
    cases hp : processFile L dn a v segs st f with
    | error e =>
      rw [hp] at hf
      simpa [processFiles, hp, stOf] using hf
    | ok st2 =>
      rw [hp] at hf
      simp only [stOf] at hf
      simpa [processFiles, hp] using ih st2 hf

theorem processEntry_noreg (L : Loader) (dn : String) (a v : Bool) (st : St)
    (entry : List String × List String) (h : hasRegister st.events = false) :
    hasRegister (stOf (processEntry L dn a v st entry)).events = false := by
  unfold processEntry
  by_cases hd : beginsWith "__".data (lastSeg entry.1).data = true
  · simpa [hd, stOf] using h
  · rw [Bool.not_eq_true] at hd
    simpa [hd] using processFiles_noreg L dn a v entry.1 entry.2 st h

theorem collectEntries_noreg (L : Loader) (dn : String) (a v : Bool) :
    ∀ es st, hasRegister st.events = false →
      hasRegister (stOf (collectEntries L dn a v st es)).events = false := by
  intro es
  induction es with
  | nil => intro st h; simpa [collectEntries, stOf] using h
  | cons e es ih =>
    intro st h
    have he := processEntry_noreg L dn a v st e h
    cases hp : processEntry L dn a v st e with
    | error x =>
      rw [hp] at he
      simpa [collectEntries, hp, stOf] using he
    | ok st2 =>
      rw [hp] at he
      simp only [stOf] at he
      simpa [collectEntries, hp] using ih st2 he

theorem processFile_heap_noauto (L : Loader) (dn : String) (v : Bool) (segs : List String)
    (st : St) (f : String) :
    (stOf (processFile L dn false v segs st f)).heap = st.heap := by
  unfold processFile
  by_cases h1 : (beginsWith "__".data f.data || (pySuffix f != ".py")) = true
  · simp [h1, stOf]
  · rw [Bool.not_eq_true] at h1
    by_cases h2 : (containsSub "route".data (pyStem f).data && (pyStem f != "route")) = true
    · simp [h1, h2, stOf]
    · rw [Bool.not_eq_true] at h2
      cases hl : L (module_path segs f) with
      | raised => simp [h1, h2, hl, stOf]
      | noRouter => simp [h1, h2, hl, stOf]
      | found id => simp [h1, h2, hl, stOf]

theorem processFiles_heap_noauto (L : Loader) (dn : String) (v : Bool) (segs : List String) :
    ∀ fs st, (stOf (processFiles L dn false v segs st fs)).heap = st.heap := by
  intro fs
  induction fs with
  | nil => intro st; simp [processFiles, stOf]
  | cons f fs ih =>
    intro st
    have hf := processFile_heap_noauto L dn v segs st f
    cases hp : processFile L dn false v segs st f with
    | error e =>
      rw [hp] at hf
      simpa [processFiles, hp, stOf] using hf
    | ok st2 =>
      rw [hp] at hf
      simp only [stOf] at hf
      rw [← hf]
      simpa [processFiles, hp] using ih st2

theorem processEntry_heap_noauto (L : Loader) (dn : String) (v : Bool) (st : St)
    (entry : List String × List String) :
    (stOf (processEntry L dn false v st entry)).heap = st.heap := by
  unfold processEntry
  by_cases hd : beginsWith "__".data (lastSeg entry.1).data = true
  · simp [hd, stOf]
  · rw [Bool.not_eq_true] at hd
    simpa [hd] using processFiles_heap_noauto L dn v entry.1 entry.2 st

theorem collectEntries_heap_noauto (L : Loader) (dn : String) (v : Bool) :
    ∀ es st, (stOf (collectEntries L dn false v st es)).heap = st.heap := by
  intro es
  induction es with
  | nil => intro st; simp [collectEntries, stOf]
  | cons e es ih =>
    intro st
    have he := processEntry_heap_noauto L dn v st e
    cases hp : processEntry L dn false v st e with
    | error x =>
      rw [hp] at he
      simpa [collectEntries, hp, stOf] using he
    | ok st2 =>
      rw [hp] at he
      simp only [stOf] at he
      rw [← he]
      simpa [collectEntries, hp] using ih st2

theorem load_routes_heap_noauto (L : Loader) (t : DirTree) (v : Bool) (h : Heap) :
    (stOf (load_routes L t false v h)).heap = h := by
  unfold load_routes
  have hc := collectEntries_heap_noauto L t.name v (walk t)
    { heap := h, acc := [], events := [log ("Loading routes from " ++ t.name) v] }
  cases hcol : collectEntries L t.name false v
      { heap := h, acc := [], events := [log ("Loading routes from " ++ t.name) v] }
      (walk t) with
  | error x =>
    rw [hcol] at hc
    simpa [hcol, stOf] using hc
  | ok st2 =>
    rw [hcol] at hc
    simp only [stOf] at hc
    simpa [hcol, stOf, registerPhase] using hc

/-! The control flow, accumulator and trace of the accumulation phase do
not depend on the starting heap: only auto-tag mutation touches it. -/

theorem processFile_indep (L : Loader) (dn : String) (a v : Bool) (segs : List String)
    (f : String) (h h' : Heap) (ac : List (String × Nat)) (ev : List Event) :
    runOk (processFile L dn a v segs ⟨h', ac, ev⟩ f)
        = runOk (processFile L dn a v segs ⟨h, ac, ev⟩ f)
      ∧ (stOf (processFile L dn a v segs ⟨h', ac, ev⟩ f)).acc
        = (stOf (processFile L dn a v segs ⟨h, ac, ev⟩ f)).acc
      ∧ (stOf (processFile L dn a v segs ⟨h', ac, ev⟩ f)).events
        = (stOf (processFile L dn a v segs ⟨h, ac, ev⟩ f)).events := by
  unfold processFile
  by_cases h1 : (beginsWith "__".data f.data || (pySuffix f != ".py")) = true
  · simp [h1, stOf, runOk]
  · rw [Bool.not_eq_true] at h1
    by_cases h2 : (containsSub "route".data (pyStem f).data && (pyStem f != "route")) = true
    · simp [h1, h2, stOf, runOk]
    · rw [Bool.not_eq_true] at h2
      cases hl : L (module_path segs f) with
      | raised => simp [h1, h2, hl, stOf, runOk]
      | noRouter => simp [h1, h2, hl, stOf, runOk]
      | found id => simp [h1, h2, hl, stOf, runOk]

theorem processFiles_indep (L : Loader) (dn : String) (a v : Bool) (segs : List String) :
    ∀ fs (h h' : Heap) (ac : List (String × Nat)) (ev : List Event),
      runOk (processFiles L dn a v segs ⟨h', ac, ev⟩ fs)
          = runOk (processFiles L dn a v segs ⟨h, ac, ev⟩ fs)
        ∧ (stOf (processFiles L dn a v segs ⟨h', ac, ev⟩ fs)).acc
          = (stOf (processFiles L dn a v segs ⟨h, ac, ev⟩ fs)).acc
        ∧ (stOf (processFiles L dn a v segs ⟨h', ac, ev⟩ fs)).events
          = (stOf (processFiles L dn a v segs ⟨h, ac, ev⟩ fs)).events := by
  intro fs
  induction fs with
  | nil => intro h h' ac ev; simp [processFiles, stOf, runOk]
  | cons f fs ih =>
    intro h h' ac ev
    obtain ⟨hok, hacc, hev⟩ := processFile_indep L dn a v segs f h h' ac ev
    cases hp : processFile L dn a v segs ⟨h, ac, ev⟩ f with
    | error e =>
      cases hp' : processFile L dn a v segs ⟨h', ac, ev⟩ f with
      | error e' =>
        rw [hp, hp'] at hacc hev
        simp only [stOf] at hacc hev
        simp [processFiles, hp, hp', stOf, runOk, hacc, hev]
      | ok s' =>
        rw [hp, hp'] at hok
        simp [runOk] at hok
    | ok s =>
      cases hp' : processFile L dn a v segs ⟨h', ac, ev⟩ f with
      | error e' =>
        rw [hp, hp'] at hok
        simp [runOk] at hok
      | ok s' =>
        rw [hp, hp'] at hacc hev
        simp only [stOf] at hacc hev
        obtain ⟨sh, sa, se⟩ := s
        obtain ⟨sh', sa', se'⟩ := s'
        simp only at hacc hev
        subst hacc
        subst hev
        simpa [processFiles, hp, hp'] using ih sh sh' sa' se'

theorem processEntry_indep (L : Loader) (dn : String) (a v : Bool)
    (e : List String × List String) (h h' : Heap) (ac : List (String × Nat))
    (ev : List Event) :
    runOk (processEntry L dn a v ⟨h', ac, ev⟩ e)
        = runOk (processEntry L dn a v ⟨h, ac, ev⟩ e)
      ∧ (stOf (processEntry L dn a v ⟨h', ac, ev⟩ e)).acc
        = (stOf (processEntry L dn a v ⟨h, ac, ev⟩ e)).acc
      ∧ (stOf (processEntry L dn a v ⟨h', ac, ev⟩ e)).events
        = (stOf (processEntry L dn a v ⟨h, ac, ev⟩ e)).events := by
  unfold processEntry
  by_cases hd : beginsWith "__".data (lastSeg e.1).data = true
  · simp [hd, stOf, runOk]
  · rw [Bool.not_eq_true] at hd
    simpa [hd] using processFiles_indep L dn a v e.1 e.2 h h' ac ev

theorem collectEntries_indep (L : Loader) (dn : String) (a v : Bool) :
    ∀ es (h h' : Heap) (ac : List (String × Nat)) (ev : List Event),
      runOk (collectEntries L dn a v ⟨h', ac, ev⟩ es)
          = runOk (collectEntries L dn a v ⟨h, ac, ev⟩ es)
        ∧ (stOf (collectEntries L dn a v ⟨h', ac, ev⟩ es)).acc
          = (stOf (collectEntries L dn a v ⟨h, ac, ev⟩ es)).acc
        ∧ (stOf (collectEntries L dn a v ⟨h', ac, ev⟩ es)).events
          = (stOf (collectEntries L dn a v ⟨h, ac, ev⟩ es)).events := by
  intro es
  induction es with
  | nil => intro h h' ac ev; simp [collectEntries, stOf, runOk]
  | cons e es ih =>
    intro h h' ac ev
    obtain ⟨hok, hacc, hev⟩ := processEntry_indep L dn a v e h h' ac ev
    cases hp : processEntry L dn a v ⟨h, ac, ev⟩ e with
    | error x =>
      cases hp' : processEntry L dn a v ⟨h', ac, ev⟩ e with
      | error x' =>
        rw [hp, hp'] at hacc hev
        simp only [stOf] at hacc hev
        simp [collectEntries, hp, hp', stOf, runOk, hacc, hev]
      | ok s' =>
        rw [hp, hp'] at hok
        simp [runOk] at hok
    | ok s =>
      cases hp' : processEntry L dn a v ⟨h', ac, ev⟩ e with
      | error x' =>
        rw [hp, hp'] at hok
        simp [runOk] at hok
      | ok s' =>
        rw [hp, hp'] at hacc hev
        simp only [stOf] at hacc hev
        obtain ⟨sh, sa, se⟩ := s
        obtain ⟨sh', sa', se'⟩ := s'
        simp only at hacc hev
        subst hacc
        subst hev
        simpa [collectEntries, hp, hp'] using ih sh sh' sa' se'

/-! Bridge lemmas between the registration phase and the traces. -/

theorem registered_registerPhase (v : Bool) (st : St) (h : hasRegister st.events = false) :
    registered (registerPhase v st) =
      (sortByKey st.acc).map fun e => (e.1, st.heap.getD e.2 []) := by
  unfold registered registerPhase
  simp only
  rw [registeredEv_append, registeredEv_append]
  rw [registeredEv_eq_nil_of_noreg _ h, registeredEv_regEvents]
  simp [registeredEv, log]

theorem load_routes_ok_elim (L : Loader) (t : DirTree) (a v : Bool) (h : Heap) (st : St)
    (hok : load_routes L t a v h = .ok st) :
    ∃ stC, collectEntries L t.name a v
        { heap := h, acc := [], events := [log ("Loading routes from " ++ t.name) v] }
        (walk t) = .ok stC ∧ st = registerPhase v stC := by
  simp only [load_routes] at hok
  cases hc : collectEntries L t.name a v
      { heap := h, acc := [], events := [log ("Loading routes from " ++ t.name) v] }
      (walk t) with
  | error x => rw [hc] at hok; simp at hok
  | ok stC =>
    rw [hc] at hok
    simp only [Except.ok.injEq] at hok
    exact ⟨stC, rfl, hok.symm⟩

theorem load_routes_error_elim (L : Loader) (t : DirTree) (a v : Bool) (h : Heap) (st : St)
    (herr : load_routes L t a v h = .error st) :
    collectEntries L t.name a v
        { heap := h, acc := [], events := [log ("Loading routes from " ++ t.name) v] }
        (walk t) = .error st := by
  simp only [load_routes] at herr
  cases hc : collectEntries L t.name a v
      { heap := h, acc := [], events := [log ("Loading routes from " ++ t.name) v] }
      (walk t) with
  | error x =>
    rw [hc] at herr
    simp only [Except.error.injEq] at herr
    rw [herr]
  | ok stC => rw [hc] at herr; simp at herr

theorem noreg_start (t : DirTree) (v : Bool) :
    hasRegister [log ("Loading routes from " ++ t.name) v] = false := by
  simp [hasRegister, log]

/-- C1 counterexample: for the tree api with subdirectory users holding
route.py, the run registers the entry with the host mount API under the
bare path template users, not under slash users as the claim states: no
leading slash is prepended at registration (only the log message adds
one). -/
theorem c1_counterexample :
    registered (stOf (load_routes
        (fun m => if m = "api.users.route" then .found 0 else .raised)
        (.mk "api" [] [.mk "users" ["route.py"] []]) true true [["t0"]]))
      = [("users", ["t0", "users"])]
    ∧ ("users" : String) ≠ "/" ++ "users" := by
  decide

/-- C1 amended: loadRoutes registers every entry with a prefix equal to
the entry's path template exactly as accumulated, with no leading slash
prepended by the registering caller. -/
theorem c1_prefix_amended (L : Loader) (t : DirTree) (a v : Bool) (h : Heap) (st : St)
    (hok : load_routes L t a v h = .ok st) :
    ∀ p tags, (p, tags) ∈ registered st → p ∈ st.acc.map Prod.fst := by
  obtain ⟨stC, hc, hst⟩ := load_routes_ok_elim L t a v h st hok
  have hnr : hasRegister stC.events = false := by
    have := collectEntries_noreg L t.name a v (walk t)
      { heap := h, acc := [], events := [log ("Loading routes from " ++ t.name) v] }
      (noreg_start t v)
    rw [hc] at this
    simpa [stOf] using this
  intro p tags hmem
  rw [hst] at hmem ⊢
  rw [registered_registerPhase v stC hnr] at hmem
  rcases List.mem_map.mp hmem with ⟨e, hes, hfe⟩
  have hacc : e ∈ stC.acc := (mem_sortByKey e stC.acc).mp hes
  have hp : p = e.1 := by
    have := congrArg Prod.fst hfe
    simpa using this.symm
  subst hp
  simp only [registerPhase]
  exact List.mem_map.mpr ⟨e, hacc, rfl⟩

/-- C1 amended, witness at the concrete counterexample input: the
registered prefix users is one of the accumulated path templates. -/
theorem c1_prefix_amended_witness :
    ("users" : String) ∈
      (stOf (load_routes
        (fun m => if m = "api.users.route" then .found 0 else .raised)
        (.mk "api" [] [.mk "users" ["route.py"] []]) true true [["t0"]])).acc.map Prod.fst := by
  refine c1_prefix_amended
    (fun m => if m = "api.users.route" then .found 0 else .raised)
    (.mk "api" [] [.mk "users" ["route.py"] []]) true true [["t0"]]
    { heap := [["t0", "users"]]
      acc := [("users", 0)]
      events := [Event.log .info "Loading routes from api",
        Event.importMod "api.users.route",
        Event.log .info "Loaded router with path /users",
        Event.register "users" ["t0", "users"],
        Event.log .info "Routes loaded"] }
    (by rfl) "users" ["t0", "users"] (by decide)

/-- C2 counterexample: with root directory api and nested directories
api/api/api, the joined inner string is api slash api; the source strips
both occurrences of the root name, giving a bare slash, whereas removing
exactly one occurrence as the claim states would leave slash api. -/
theorem c2_counterexample :
    derive_route_path "api" ["api", "api", "api"] "route.py" = "/"
    ∧ String.mk (strip_one "api".data
        (square_to_curly_brackets (joined_dirs ["api", "api", "api"] "route.py")).data)
      = "/api"
    ∧ ("/" : String) ≠ "/api" := by
  decide

/-- C2 amended: after joining the directory segments and converting
brackets, every leftmost non-overlapping occurrence of the tree-root
directory's name is removed in a single left-to-right pass (not exactly
one); characters outside removed occurrences are preserved. -/
theorem c2_strip_amended :
    (∀ dn segs f, base_path dn segs f
        = strReplace (square_to_curly_brackets (joined_dirs segs f)) dn "")
    ∧ (∀ pat rep t, pat ≠ ([] : List Char) →
        replaceList pat rep (pat ++ t) = rep ++ replaceList pat rep t)
    ∧ (∀ pat rep s, containsSub pat s = false → replaceList pat rep s = s) := by
  exact ⟨fun _ _ _ => rfl, replaceList_strip_front,
    fun pat rep s => replaceList_id_of_not_contains pat rep s⟩

/-- C2 amended, witness: a leading occurrence is stripped and stripping
recurses on the remainder, and a pattern-free text is left unchanged. -/
theorem c2_strip_amended_witness :
    replaceList ['a', 'b'] [] (['a', 'b'] ++ ['c']) = [] ++ replaceList ['a', 'b'] [] ['c']
    ∧ replaceList ['a', 'b'] [] ['c'] = ['c'] := by
  exact ⟨c2_strip_amended.2.1 ['a', 'b'] [] ['c'] (by decide),
    c2_strip_amended.2.2 ['a', 'b'] [] ['c'] (by decide)⟩

/-- C3 counterexample: for root directory api and the file apikey.py
directly inside it, the resolved path template is slash apikey but the
tag appended to the handler's tag list is slash key: the tag is the
template with the root name textually removed again, not the template
itself. -/
theorem c3_counterexample :
    registered (stOf (load_routes
        (fun m => if m = "api.apikey" then .found 0 else .raised)
        (.mk "api" ["apikey.py"] []) true true [[]]))
      = [("/apikey", ["/key"])]
    ∧ derive_route_path "api" ["api"] "apikey.py" = "/apikey"
    ∧ auto_tag "api" "/apikey" = "/key"
    ∧ ("/key" : String) ≠ "/apikey" := by
  decide

/-- C4 counterexample: running load_routes twice over the same tree with
the same caching loader: the first run mutates the loaded handler's tag
list in the heap, so the second run observes the first run's tag and
appends the derived tag again, registering a duplicated tag list. -/
theorem c4_counterexample :
    (stOf (load_routes (fun m => if m = "srv.items.route" then .found 0 else .raised)
        (.mk "srv" [] [.mk "items" ["route.py"] []]) true false [["base"]])).heap
      = [["base", "items"]]
    ∧ ([["base", "items"]] : Heap) ≠ [["base"]]
    ∧ registered (stOf (load_routes (fun m => if m = "srv.items.route" then .found 0 else .raised)
        (.mk "srv" [] [.mk "items" ["route.py"] []]) true false [["base", "items"]]))
      = [("items", ["base", "items", "items"])]
    ∧ registered (stOf (load_routes (fun m => if m = "srv.items.route" then .found 0 else .raised)
        (.mk "srv" [] [.mk "items" ["route.py"] []]) true false [["base"]]))
      = [("items", ["base", "items"])]
    ∧ ([("items", ["base", "items", "items"])] : List (String × List String))
      ≠ [("items", ["base", "items"])] := by
  decide

/-- C4 amended: with automatic tagging disabled no handler state is
modified, so repeated invocations are fully independent; with automatic
tagging enabled the derived tag is appended to the loaded handler's tag
list in place, a mutation that persists into any later run whose loader
returns the same handler (shown by the counterexample). -/
theorem c4_no_residual_amended (L : Loader) (t : DirTree) (v : Bool) (h : Heap) :
    (stOf (load_routes L t false v h)).heap = h
    ∧ load_routes L t false v ((stOf (load_routes L t false v h)).heap)
      = load_routes L t false v h := by
  refine ⟨load_routes_heap_noauto L t v h, ?_⟩
  rw [load_routes_heap_noauto L t v h]

/-- C5: every successful run registers its entries in ascending order of
path template under ordinary lexicographic string comparison, and the
sequence of registered path templates does not depend on the starting
heap, so collecting again over the unchanged tree (with whatever heap an
earlier run left behind) yields the identical ordering. -/
theorem c5_sorted_deterministic (L : Loader) (t : DirTree) (a v : Bool) (h : Heap) (st : St)
    (hok : load_routes L t a v h = .ok st) :
    (registered st).Pairwise (fun x y => lexLe x.1.data y.1.data = true)
    ∧ ∀ h' : Heap, ∃ st', load_routes L t a v h' = .ok st'
        ∧ (registered st').map Prod.fst = (registered st).map Prod.fst := by
  obtain ⟨stC, hc, hst⟩ := load_routes_ok_elim L t a v h st hok
  have hnr : hasRegister stC.events = false := by
    have hn := collectEntries_noreg L t.name a v (walk t)
      { heap := h, acc := [], events := [log ("Loading routes from " ++ t.name) v] }
      (noreg_start t v)
    rw [hc] at hn
    simpa [stOf] using hn
  constructor
  · rw [hst, registered_registerPhase v stC hnr]
    refine List.Pairwise.map _ ?_ (sortByKey_pairwise stC.acc)
    intro e1 e2 h12
    exact h12
  · intro h'
    obtain ⟨hokk, hacc, hev⟩ := collectEntries_indep L t.name a v (walk t) h h' []
      [log ("Loading routes from " ++ t.name) v]
    rw [hc] at hokk hacc hev
    cases hc' : collectEntries L t.name a v
        { heap := h', acc := [], events := [log ("Loading routes from " ++ t.name) v] }
        (walk t) with
    | error x =>
      rw [hc'] at hokk
      simp [runOk] at hokk
    | ok stC' =>
      rw [hc'] at hacc hev
      simp only [stOf] at hacc hev
      have hnr' : hasRegister stC'.events = false := by rw [hev]; exact hnr
      refine ⟨registerPhase v stC', ?_, ?_⟩
      · simp only [load_routes]
        rw [hc']
      · rw [hst, registered_registerPhase v stC hnr,
          registered_registerPhase v stC' hnr', hacc]
        simp [List.map_map, Function.comp]

/-- C5 witness: a run over a tree whose subdirectories arrive in reverse
name order registers them sorted, and the ordering is reproduced from any
starting heap. -/
theorem c5_sorted_deterministic_witness :
    ([("a", ["a"]), ("b", ["b"])] : List (String × List String)).Pairwise
      (fun x y => lexLe x.1.data y.1.data = true)
    ∧ ∀ h' : Heap, ∃ st',
        load_routes
          (fun m => if m = "api.b.route" then .found 0
            else if m = "api.a.route" then .found 1 else .raised)
          (.mk "api" [] [.mk "b" ["route.py"] [], .mk "a" ["route.py"] []])
          true false h' = .ok st'
        ∧ (registered st').map Prod.fst
          = (registered
              { heap := [["b"], ["a"]]
                acc := [("b", 0), ("a", 1)]
                events := [Event.log .debug "Loading routes from api",
                  Event.importMod "api.b.route",
                  Event.importMod "api.a.route",
                  Event.log .debug "Loaded router with path /a",
                  Event.register "a" ["a"],
                  Event.log .debug "Loaded router with path /b",
                  Event.register "b" ["b"],
                  Event.log .debug "Routes loaded"] }).map Prod.fst := by
  have hmain := c5_sorted_deterministic
    (fun m => if m = "api.b.route" then .found 0
      else if m = "api.a.route" then .found 1 else .raised)
    (.mk "api" [] [.mk "b" ["route.py"] [], .mk "a" ["route.py"] []])
    true false [[], []]
    { heap := [["b"], ["a"]]
      acc := [("b", 0), ("a", 1)]
      events := [Event.log .debug "Loading routes from api",
        Event.importMod "api.b.route",
        Event.importMod "api.a.route",
        Event.log .debug "Loaded router with path /a",
        Event.register "a" ["a"],
        Event.log .debug "Loaded router with path /b",
        Event.register "b" ["b"],
        Event.log .debug "Routes loaded"] }
    (by rfl)
  exact ⟨hmain.1, hmain.2⟩

/-- C6: the path derivation appends nothing when the stem is exactly
route, appends a parameter segment holding the first bracketed group's
captured text when the stem has a bracketed group, and otherwise appends
the stem as a literal final segment. -/
theorem c6_resolve_cases (dn : String) (segs : List String) (f : String) :
    (pyStem f = "route" → derive_route_path dn segs f = base_path dn segs f)
    ∧ (∀ p, deriveParameterName (pyStem f) = some p →
        derive_route_path dn segs f = base_path dn segs f ++ "/\x7b" ++ p ++ "\x7d")
    ∧ (deriveParameterName (pyStem f) = none → pyStem f ≠ "route" →
        derive_route_path dn segs f = base_path dn segs f ++ "/" ++ pyStem f) := by
  refine ⟨?_, ?_, ?_⟩
  · intro hst
    have hd : deriveParameterName "route" = none := by decide
    simp [derive_route_path, hst, hd]
  · intro p hp
    simp [derive_route_path, hp]
  · intro h1 h2
    simp [derive_route_path, h1, h2]

/-- C6 witness at the three spec examples: an index file, a bracketed
parameter file and a plain literal file in directory users of root api. -/
theorem c6_resolve_cases_witness :
    derive_route_path "api" ["api", "users"] "route.py"
      = base_path "api" ["api", "users"] "route.py"
    ∧ derive_route_path "api" ["api", "users"] "[user_id].py"
      = base_path "api" ["api", "users"] "[user_id].py" ++ "/\x7b" ++ "user_id" ++ "\x7d"
    ∧ derive_route_path "api" ["api", "users"] "profile.py"
      = base_path "api" ["api", "users"] "profile.py" ++ "/" ++ pyStem "profile.py" := by
  exact ⟨(c6_resolve_cases "api" ["api", "users"] "route.py").1 (by decide),
    (c6_resolve_cases "api" ["api", "users"] "[user_id].py").2.1 "user_id" (by decide),
    (c6_resolve_cases "api" ["api", "users"] "profile.py").2.2 (by decide) (by decide)⟩

/-- C7 counterexample: a double-underscore directory under the root holds
a valid route file inside a nested ordinary subdirectory; the run still
collects and registers that nested entry, so the double-underscore
directory does not contribute zero entries as the claim states. -/
theorem c7_counterexample :
    registered (stOf (load_routes
        (fun m => if m = "api.__hidden.inner.route" then .found 0 else .raised)
        (.mk "api" [] [.mk "__hidden" ["secret.py"] [.mk "inner" ["route.py"] []]])
        true true [[]]))
      = [("__hidden/inner", ["__hidden/inner"])]
    ∧ ([("__hidden/inner", ["__hidden/inner"])] : List (String × List String)) ≠ [] := by
  decide

/-- C7 amended: only the files directly inside a directory whose base
name starts with the double underscore are skipped (the walk entry of
such a directory contributes nothing at all), while files in its nested
ordinary subdirectories are still collected, as the counterexample
shows. -/
theorem c7_skip_amended (L : Loader) (dn : String) (a v : Bool) (st : St)
    (segs : List String) (files : List String)
    (hd : beginsWith "__".data (lastSeg segs).data = true) :
    processEntry L dn a v st (segs, files) = .ok st := by
  unfold processEntry
  simp [hd]

/-- C7 amended, witness: the walk entry of directory api slash double
underscore x contributes nothing even though it lists route.py. -/
theorem c7_skip_amended_witness :
    processEntry (fun _ => .raised) "api" true true
        { heap := [], acc := [], events := [] } (["api", "__x"], ["route.py"])
      = .ok { heap := [], acc := [], events := [] } :=
  c7_skip_amended (fun _ => .raised) "api" true true
    { heap := [], acc := [], events := [] } ["api", "__x"] ["route.py"] (by decide)

/-- C8 counterexample: a run over a tree holding router.py completes,
excludes the file and never invokes the loader, and the skip diagnostic
is emitted at info level (verbose run): no warning-level record exists
anywhere in the trace, contradicting the claimed warning-level event. -/
theorem c8_counterexample :
    runOk (load_routes (fun _ => .raised)
        (.mk "api" [] [.mk "users" ["router.py"] []]) true true [[]]) = true
    ∧ hasWarnLog (stOf (load_routes (fun _ => .raised)
        (.mk "api" [] [.mk "users" ["router.py"] []]) true true [[]])).events = false
    ∧ Event.log .info "Skipping possibly misspelled route file router in api/users"
        ∈ (stOf (load_routes (fun _ => .raised)
          (.mk "api" [] [.mk "users" ["router.py"] []]) true true [[]])).events
    ∧ hasImport (stOf (load_routes (fun _ => .raised)
        (.mk "api" [] [.mk "users" ["router.py"] []]) true true [[]])).events = false
    ∧ registered (stOf (load_routes (fun _ => .raised)
        (.mk "api" [] [.mk "users" ["router.py"] []]) true true [[]])) = [] := by
  decide

/-- C8 amended: a file whose stem contains the substring route without
being exactly route is excluded from the result, the module loader is
not invoked for it and traversal continues, while the diagnostic is
logged at info level when verbose and debug level otherwise, never at
warning level. -/
theorem c8_misspell_amended (L : Loader) (dn : String) (a v : Bool)
    (segs : List String) (st : St) (f : String)
    (h1 : (beginsWith "__".data f.data || (pySuffix f != ".py")) = false)
    (h2 : (containsSub "route".data (pyStem f).data && (pyStem f != "route")) = true) :
    processFile L dn a v segs st f = .ok { st with events := st.events ++
      [Event.log (if v then .info else .debug)
        ("Skipping possibly misspelled route file " ++ pyStem f ++ " in "
          ++ dirPathStr segs)] } := by
  unfold processFile
  simp [h1, h2, log]

/-- C8 amended, witness: the misspelled file router.py in directory
api slash users is skipped with a single info-level diagnostic. -/
theorem c8_misspell_amended_witness :
    processFile (fun _ => .raised) "api" true true ["api", "users"]
        { heap := [[]], acc := [], events := [] } "router.py"
      = .ok
          { heap := [[]]
            acc := []
            events := [] ++ [Event.log (if true then .info else .debug)
              ("Skipping possibly misspelled route file " ++ pyStem "router.py" ++ " in "
                ++ dirPathStr ["api", "users"])] } :=
  c8_misspell_amended (fun _ => .raised) "api" true true ["api", "users"]
    { heap := [[]], acc := [], events := [] } "router.py" (by decide) (by decide)

/-- C9: registration happens strictly after the whole accumulation and
sort: a run that fails during traversal has performed no registration at
all, and the trace of a successful run is its accumulation trace, which
is free of registrations, followed by the registration block over the
sorted accumulator. -/
theorem c9_two_phase (L : Loader) (t : DirTree) (a v : Bool) (h : Heap) :
    (∀ st, load_routes L t a v h = .error st → hasRegister st.events = false)
    ∧ (∀ st, load_routes L t a v h = .ok st →
        ∃ evC, st.events = evC ++ regEvents v st.heap (sortByKey st.acc)
            ++ [log "Routes loaded" v]
          ∧ hasRegister evC = false) := by
  constructor
  · intro st herr
    have hc := load_routes_error_elim L t a v h st herr
    have hn := collectEntries_noreg L t.name a v (walk t)
      { heap := h, acc := [], events := [log ("Loading routes from " ++ t.name) v] }
      (noreg_start t v)
    rw [hc] at hn
    simpa [stOf] using hn
  · intro st hok
    obtain ⟨stC, hc, hst⟩ := load_routes_ok_elim L t a v h st hok
    have hn : hasRegister stC.events = false := by
      have hx := collectEntries_noreg L t.name a v (walk t)
        { heap := h, acc := [], events := [log ("Loading routes from " ++ t.name) v] }
        (noreg_start t v)
      rw [hc] at hx
      simpa [stOf] using hx
    refine ⟨stC.events, ?_, hn⟩
    rw [hst]
    simp [registerPhase]

/-- C9 witness: a loader that raises on the first import leaves a trace
holding only the start log and the import event, with no registration. -/
theorem c9_two_phase_witness :
    hasRegister [Event.log .info "Loading routes from api",
      Event.importMod "api.z.route"] = false :=
  (c9_two_phase (fun _ => .raised) (.mk "api" [] [.mk "z" ["route.py"] []])
      true true []).1
    { heap := [], acc := [],
      events := [Event.log .info "Loading routes from api",
        Event.importMod "api.z.route"] }
    (by rfl)

/-- C10: when the stem holds a bracketed group the appended final
segment is exactly the parameter segment of the first group's captured
text and every other character of the stem is discarded: the stem
user bracket id bracket s contributes the segment of parameter id with
the surrounding letters dropped. -/
theorem c10_param_only :
    (∀ (dn : String) (segs : List String) (f : String) (p : String),
      deriveParameterName (pyStem f) = some p →
      derive_route_path dn segs f = base_path dn segs f ++ "/\x7b" ++ p ++ "\x7d")
    ∧ derive_route_path "api" ["api", "x"] "user[id]s.py" = "x/\x7bid\x7d" := by
  constructor
  · intro dn segs f p hp
    simp [derive_route_path, hp]
  · decide

/-- C10 witness: the bracketed stem file under root v1 appends exactly
the parameter segment of id. -/
theorem c10_param_only_witness :
    derive_route_path "v1" ["v1"] "user[id]s.py"
      = base_path "v1" ["v1"] "user[id]s.py" ++ "/\x7b" ++ "id" ++ "\x7d" :=
  c10_param_only.1 "v1" ["v1"] "user[id]s.py" "id" (by decide)

/-- C3 amended: when the module loader yields a router, the tag appended
to the handler's pre-existing tag list is the resolved path template with
every occurrence of the root directory's name textually removed again --
not the template itself -- and with automatic tagging disabled no handler
tag list is touched by a whole run. -/
theorem c3_tag_amended :
    (∀ (L : Loader) (dn : String) (v : Bool) (segs : List String) (st : St)
        (f : String) (id : Nat),
      (beginsWith "__".data f.data || (pySuffix f != ".py")) = false →
      (containsSub "route".data (pyStem f).data && (pyStem f != "route")) = false →
      L (module_path segs f) = .found id →
      processFile L dn true v segs st f = .ok
        { heap := st.heap.set id (st.heap.getD id []
            ++ [strReplace (derive_route_path dn segs f) dn ""])
          acc := st.acc ++ [(derive_route_path dn segs f, id)]
          events := st.events ++ [.importMod (module_path segs f)] })
    ∧ ∀ (L : Loader) (t : DirTree) (v : Bool) (h : Heap),
        (stOf (load_routes L t false v h)).heap = h := by
  constructor
  · intro L dn v segs st f id h1 h2 hl
    unfold processFile
    simp [h1, h2, hl, auto_tag]
  · exact fun L t v h => load_routes_heap_noauto L t v h

/-- C3 amended, witness: for the file apikey.py under root api the
appended tag is the template slash apikey with api removed, slash key. -/
theorem c3_tag_amended_witness :
    processFile (fun m => if m = "api.apikey" then .found 0 else .raised)
        "api" true true ["api"] { heap := [[]], acc := [], events := [] } "apikey.py"
      = .ok
          { heap := [[]].set 0 ([[]].getD 0 []
              ++ [strReplace (derive_route_path "api" ["api"] "apikey.py") "api" ""])
            acc := [] ++ [(derive_route_path "api" ["api"] "apikey.py", 0)]
            events := [] ++ [.importMod (module_path ["api"] "apikey.py")] } :=
  c3_tag_amended.1 (fun m => if m = "api.apikey" then .found 0 else .raised)
    "api" true ["api"] { heap := [[]], acc := [], events := [] } "apikey.py" 0
    (by decide) (by decide) (by rfl)
